import Mathlib

/-!
Verification of the BIDS-Manager classification and aggregation engine
(`bids_manager/dicom_inventory.py` and `bids_manager/run_heudiconv_from_heuristic.py`),
as a shallow embedding in Lean 4.

Strings are Lean `String`s (lists of unicode code points, matching Python's
string model for the ASCII data handled here).  Python `sorted` is modelled by
Mathlib's stable `List.insertionSort`; Python dictionaries whose iteration
order is observable are modelled by association lists updated in place, and
Python sets by `List.dedup` followed by sorting (the only way the engine ever
observes a set).
-/

namespace BidsManager

/-! ### Generic string and association-list helpers -/

/-- Python `p in s` (contiguous-substring test): is `p` a prefix of `l`? -/
def isPrefixChars : List Char → List Char → Bool
  | [], _ => true
  | _ :: _, [] => false
  | a :: as, b :: bs => a = b && isPrefixChars as bs

/-- Is `p` a contiguous infix of `l`?  (Empty `p` matches everywhere.) -/
def isSubChars (p : List Char) : List Char → Bool
  | [] => p.isEmpty
  | b :: bs => isPrefixChars p (b :: bs) || isSubChars p bs

/-- Python `p in s` on strings. -/
def substrB (p s : String) : Bool := isSubChars p.data s.data

/-- Python `s.lower()` (ASCII case folding, as used by the repository). -/
def lowerStr (s : String) : String := String.mk (s.data.map Char.toLower)

/-- Python `s.strip()` for ASCII whitespace. -/
def trimChars (l : List Char) : List Char :=
  ((l.dropWhile Char.isWhitespace).reverse.dropWhile Char.isWhitespace).reverse

/-- Python `s.strip()` on strings. -/
def trimStr (s : String) : String := String.mk (trimChars s.data)

/-- Python `s.strip("'")`: drop all leading and trailing apostrophes. -/
def stripQuotes (s : String) : String :=
  String.mk (((s.data.dropWhile (fun c => c = '\'')).reverse.dropWhile
    (fun c => c = '\'')).reverse)

/-- Python `s.split(c)` for a one-character separator (keeps empty pieces). -/
def splitOnChar (c : Char) : List Char → List (List Char)
  | [] => [[]]
  | x :: xs =>
    if x = c then [] :: splitOnChar c xs
    else
      match splitOnChar c xs with
      | [] => [[x]]
      | y :: ys => (x :: y) :: ys

/-- `splitOnChar` on strings. -/
def splitStr (c : Char) (s : String) : List String :=
  (splitOnChar c s.data).map String.mk

/-- Python `sep.join(parts)`. -/
def joinSep (sep : String) : List String → String
  | [] => ""
  | [x] => x
  | x :: y :: ys => x ++ sep ++ joinSep sep (y :: ys)

/-- Python `s[:4]` (used for the field-map acquisition-time bucket). -/
def take4 (s : String) : String := String.mk (s.data.take 4)

/-- Python `s.startswith(p)`. -/
def startsWithB (s p : String) : Bool := isPrefixChars p.data s.data

/-- Python `s.endswith(p)`. -/
def endsWithB (s p : String) : Bool := isPrefixChars p.data.reverse s.data.reverse

/-- Code-point lexicographic strict order on character lists
(Python's `<` on strings). -/
def ltCharsB : List Char → List Char → Bool
  | _, [] => false
  | [], _ :: _ => true
  | a :: as, b :: bs =>
    if a.toNat < b.toNat then true
    else if b.toNat < a.toNat then false
    else ltCharsB as bs

/-- Non-strict code-point order on strings, as a Bool. -/
def leStrB (a b : String) : Bool := a = b || ltCharsB a.data b.data

/-- Non-strict code-point order on strings, as a decidable relation for
`List.insertionSort` (Python's `sorted` on strings is stable and uses
exactly this order). -/
def strLe (a b : String) : Prop := leStrB a b = true

instance : DecidableRel strLe := fun a b => inferInstanceAs (Decidable (_ = true))

/-- Python tuple comparison on string pairs, as a Bool. -/
def pairLeB (a b : String × String) : Bool :=
  if a.1 = b.1 then leStrB a.2 b.2 else ltCharsB a.1.data b.1.data

/-- Python `sorted` order on `(SeriesDescription, SeriesInstanceUID)` keys. -/
def pairLe (a b : String × String) : Prop := pairLeB a b = true

instance : DecidableRel pairLe := fun a b => inferInstanceAs (Decidable (_ = true))

/-- Association-list lookup (Python `d[k]` / `d.get(k)`). -/
def alookup {κ β : Type} [DecidableEq κ] : List (κ × β) → κ → Option β
  | [], _ => none
  | (k', v) :: rest, k => if k' = k then some v else alookup rest k

/-- Python `d[k] += 1` on a `defaultdict(int)`. -/
def bump {κ : Type} [DecidableEq κ] : List (κ × Nat) → κ → List (κ × Nat)
  | [], k => [(k, 1)]
  | (k', v) :: rest, k =>
    if k' = k then (k', v + 1) :: rest else (k', v) :: bump rest k

/-- Python `d[k] = v` (overwrite or append). -/
def setVal {κ β : Type} [DecidableEq κ] : List (κ × β) → κ → β → List (κ × β)
  | [], k, v => [(k, v)]
  | (k', w) :: rest, k, v =>
    if k' = k then (k', v) :: rest else (k', w) :: setVal rest k v

/-- Python `if k not in d: d[k] = v`. -/
def setIfAbsent {κ β : Type} [DecidableEq κ] (m : List (κ × β)) (k : κ) (v : β) :
    List (κ × β) :=
  match alookup m k with
  | some _ => m
  | none => setVal m k v

/-- Python `d[k].add(t)` on a `defaultdict(set)` (sets kept as duplicate-free
lists; the engine only observes them through `sorted`). -/
def addTag {κ : Type} [DecidableEq κ] (m : List (κ × List String)) (k : κ)
    (t : String) : List (κ × List String) :=
  match alookup m k with
  | some ts => if t ∈ ts then m else setVal m k (ts ++ [t])
  | none => setVal m k [t]

/-! ### Classification engine (`dicom_inventory.py`, section 1) -/

/-- `BIDS_PATTERNS`: the ordered table mapping a fine modality label to its
substring patterns.  Order matters: first match wins. -/
def BIDS_PATTERNS : List (String × List String) :=
  [ ("T1w", ["t1w", "t1-weight", "t1_", "t1 ", "mprage", "tfl3d", "fspgr"]),
    ("T2w", ["t2w", "space", "tse"]),
    ("FLAIR", ["flair"]),
    ("MTw", ["gre-mt", "gre_mt", "mt"]),
    ("PDw", ["gre-nm", "gre_nm"]),
    ("scout", ["localizer", "scout"]),
    ("report", ["phoenixzipreport", "phoenix document", ".pdf", "report"]),
    ("refscan", ["type-ref", "reference", "refscan"]),
    ("bold", ["fmri", "bold", "task-"]),
    ("SBRef", ["sbref"]),
    ("dwi", ["dti", "dwi", "diff"]),
    ("fmap", ["gre_field", "fieldmapping", "_fmap", "fmap", "phase",
              "magnitude", "b0rf", "b0_map", "b0map"]),
    ("physio", ["physiolog", "physio", "pulse", "resp"]) ]

/-- Does some pattern of the entry occur in the (already lowered) string? -/
def matchesEntry (s : String) (pats : List String) : Bool :=
  pats.any (fun p => substrB p s)

/-- The scanning loop of `guess_modality`. -/
def guessModalityAux (s : String) : List (String × List String) → String
  | [] => "unknown"
  | (label, pats) :: rest =>
    if matchesEntry s pats then label else guessModalityAux s rest

/-- `guess_modality`: first matching fine label, otherwise `"unknown"`. -/
def guessModality (series : String) : String :=
  guessModalityAux (lowerStr series) BIDS_PATTERNS

/-- `BIDS_CONTAINER`: fine label to top-level BIDS container. -/
def BIDS_CONTAINER : List (String × String) :=
  [ ("T1w", "anat"), ("T2w", "anat"), ("FLAIR", "anat"),
    ("MTw", "anat"), ("PDw", "anat"),
    ("scout", "anat"), ("report", "anat"), ("refscan", "anat"),
    ("bold", "func"), ("SBRef", "func"),
    ("dwi", "dwi"),
    ("fmap", "fmap") ]

/-- `modality_to_container`: `T1w → anat`, unknown → `""`. -/
def modality_to_container (mod : String) : String :=
  (alookup BIDS_CONTAINER mod).getD ""

/-- `MAGNITUDE_IMGTYPE` reference sequence. -/
def MAGNITUDE_IMGTYPE : List String := ["ORIGINAL", "PRIMARY", "M", "ND", "NORM"]

/-- `PHASE_IMGTYPE` reference sequence. -/
def PHASE_IMGTYPE : List String := ["ORIGINAL", "PRIMARY", "P", "ND"]

/-- The three runtime shapes accepted by `normalize_image_type`: `None`, a
native sequence (`list`/`tuple`/`MultiValue`, elements already rendered by
`str`), or a plain string. -/
inductive ImgVal where
  | null : ImgVal
  | seq (xs : List String) : ImgVal
  | str (s : String) : ImgVal
deriving DecidableEq

/-- `normalize_image_type`: ImageType components as a list of strings. -/
def normalize_image_type : ImgVal → List String
  | .null => []
  | .seq xs => xs.map trimStr
  | .str s =>
    if s.data.contains '\\' then (splitStr '\\' s).map trimStr
    else
      let t := trimStr s
      if startsWithB t "[" && endsWithB t "]" then
        (splitStr ',' (String.mk ((t.data.drop 1).dropLast))).map
          (fun p => stripQuotes (trimStr p))
      else if t = "" then [] else [t]

/-- `classify_fieldmap_type`: `'M'` for magnitude, `'P'` for phase, `''`
otherwise. -/
def classify_fieldmap_type (img_list : List String) : String :=
  if img_list = MAGNITUDE_IMGTYPE then "M"
  else if img_list = PHASE_IMGTYPE then "P"
  else ""

/-- The image-type tag computed per file in `_read_one`: the field-map
sub-tag, falling back to element 2 of the normalized sequence (or `""`). -/
def imgTagOf (img_list : List String) : String :=
  let img3 := classify_fieldmap_type img_list
  if img3 = "" then (img_list.getD 2 "") else img3

/-! ### Age parsing (`run_heudiconv_from_heuristic.py`) -/

/-- `_parse_age`: `re.match(r"(\d+)", value)` takes the maximal leading digit
run; absent → return the input unchanged; otherwise strip leading zeros,
with `"0"` when the digits were all zeros. -/
def parseAge (s : String) : String :=
  let ds := s.data.takeWhile Char.isDigit
  if ds = [] then s
  else
    let a := ds.dropWhile (fun c => c = '0')
    if a = [] then "0" else String.mk a

/-- Restatement of claim C10 in its own words: on an input whose first
character is a digit, the result is the leading digits with leading zeros
stripped (`"0"` when they are all zeros); otherwise the input unchanged. -/
def parseAgeClaim (s : String) : String :=
  match s.data with
  | [] => s
  | c :: _ =>
    if c.isDigit then
      let stripped := (s.data.takeWhile Char.isDigit).dropWhile (fun c => c = '0')
      if stripped = [] then "0" else String.mk stripped
    else s

/-! ### Data model for the scanner (`scan_dicoms_long`) -/

/-- Demographics copied from the first header seen for a subject. -/
structure Demo where
  GivenName : String
  FamilyName : String
  PatientID : String
  PatientSex : String
  PatientAge : String
  StudyDescription : String
deriving DecidableEq

def defaultDemo : Demo := ⟨"", "", "", "", "", ""⟩

/-- One decoded observation, as returned per file by `_read_one`
(post-decode; the decoder itself is out of scope). -/
structure Obs where
  subjKey : String          -- f"{subj}||{study}"
  folder : String
  series : String           -- SeriesDescription
  uid : String              -- SeriesInstanceUID
  modality : String         -- guess_modality(series)
  img3 : String             -- imgTagOf of the normalized ImageType
  acqTime : String
  sessTag : Option String
  demo : Demo
deriving DecidableEq

/-- One output row (column names of the final table; `incl` stands for the
source's `include` column, which is a Lean keyword). -/
structure Row where
  subject : String
  BIDS_name : String
  session : String
  source_folder : String
  incl : Nat
  sequence : String
  series_uid : String
  rep : Option Nat          -- blank is `none`
  acq_time : String
  image_type : String
  modality : String
  modality_bids : String
  n_files : Nat
  GivenName : String
  FamilyName : String
  PatientID : String
  PatientSex : String
  PatientAge : String
  StudyDescription : String
deriving DecidableEq

def defaultRow : Row :=
  ⟨"", "", "", "", 0, "", "", none, "", "", "", "", 0, "", "", "", "", "", ""⟩

/-! ### Aggregation (the loop over `results` in `scan_dicoms_long`) -/

/-- The full series key `(subj_key, folder, series, uid)` (the code's nested
dicts `d[subj_key][folder][(series, uid)]` flattened). -/
def keyOf (o : Obs) : String × String × String × String :=
  (o.subjKey, o.folder, o.series, o.uid)

/-- The in-memory stores of `scan_dicoms_long`. -/
structure Agg where
  counts : List ((String × String × String × String) × Nat)
  mods : List ((String × String × String × String) × String)
  imgtypes : List ((String × String × String × String) × String)
  acqTimes : List ((String × String × String × String) × String)
  sess : List ((String × String) × List String)
  demo : List (String × Demo)
deriving DecidableEq

def emptyAgg : Agg := ⟨[], [], [], [], [], []⟩

/-- One iteration of the result-collection loop. -/
def stepAgg (a : Agg) (o : Obs) : Agg :=
  { counts := bump a.counts (keyOf o)
    mods := setVal a.mods (keyOf o) o.modality
    imgtypes := setIfAbsent a.imgtypes (keyOf o) o.img3
    acqTimes :=
      if o.acqTime = "" then a.acqTimes
      else setIfAbsent a.acqTimes (keyOf o) o.acqTime
    sess :=
      match o.sessTag with
      | some t => addTag a.sess (o.subjKey, o.folder) t
      | none => a.sess
    demo := setIfAbsent a.demo o.subjKey o.demo }

/-- The whole result-collection loop. -/
def aggregate (obs : List Obs) : Agg := obs.foldl stepAgg emptyAgg

/-! ### PASS 2: BIDS subject numbers per study -/

/-- Split at the first `"||"` (Python `split("||", 1)`; the code always
builds keys with the separator present). -/
def splitBarsAux : List Char → Option (List Char × List Char)
  | [] => none
  | '|' :: '|' :: rest => some ([], rest)
  | c :: rest =>
    match splitBarsAux rest with
    | some (a, b) => some (c :: a, b)
    | none => none

def splitBars (s : String) : String × String :=
  match splitBarsAux s.data with
  | some (a, b) => (String.mk a, String.mk b)
  | none => (s, "")

def subjOfKey (k : String) : String := (splitBars k).1
def studyOfKey (k : String) : String := (splitBars k).2

/-- The distinct subject keys, in first-seen order (the keys of `demo`). -/
def subjKeysOf (obs : List Obs) : List String :=
  (obs.map (fun o => o.subjKey)).dedup

/-- `study_subjects[study]`: the raw identifiers contributing to a study
(possibly with duplicates; `bidsOf` models the `set` plus `sorted`). -/
def studySubjects (obs : List Obs) (study : String) : List String :=
  ((subjKeysOf obs).filter (fun k => studyOfKey k = study)).map subjOfKey

/-- `f"sub-{i:03d}"`. -/
def pad3 (n : Nat) : String :=
  let d := (Nat.repr n).data
  String.mk (List.replicate (3 - d.length) '0' ++ d)

def idxOfStr (s : String) : List String → Option Nat
  | [] => none
  | x :: xs =>
    if x = s then some 0 else (idxOfStr s xs).map (fun i => i + 1)

/-- `enumerate(sorted(subj_set))`: the code of one raw identifier within a
study's de-duplicated, lexicographically sorted identifier set. -/
def bidsOf (subjects : List String) (s : String) : String :=
  match idxOfStr s (List.insertionSort strLe subjects.dedup) with
  | some i => "sub-" ++ pad3 (i + 1)
  | none => ""

/-- `bids_map[subj_key]`. -/
def bidsName (obs : List Obs) (key : String) : String :=
  bidsOf (studySubjects obs (studyOfKey key)) (subjOfKey key)

/-! ### PASS 3: building the rows -/

/-- Session label for a folder: the single unique tag, else blank. -/
def sessionOf (a : Agg) (sk f : String) : String :=
  let labels := List.insertionSort strLe ((alookup a.sess (sk, f)).getD [])
  if labels.length = 1 then labels.headD "" else ""

/-- `sorted(counts)`: the subject keys in sorted order. -/
def subjKeysSorted (a : Agg) : List String :=
  List.insertionSort strLe ((a.counts.map (fun p => p.1.1)).dedup)

/-- `sorted(counts[subj_key])`: the folders of one subject, sorted. -/
def foldersOf (a : Agg) (sk : String) : List String :=
  List.insertionSort strLe
    ((a.counts.filterMap
      (fun p => if p.1.1 = sk then some p.1.2.1 else none)).dedup)

/-- `sorted(counts[subj_key][folder].items())`: the series keys of one
folder, sorted by `(series, uid)`. -/
def seriesKeys (a : Agg) (sk f : String) : List (String × String) :=
  List.insertionSort pairLe
    ((a.counts.filterMap
      (fun p => if p.1.1 = sk ∧ p.1.2.1 = f then some p.1.2.2 else none)).dedup)

/-- The loop body building one row; returns the row and the updated
`rep_counter`. -/
def rowFor (a : Agg) (bname sk f session : String) (dm : Demo)
    (firstRow : Bool) (repCtr : List ((String × Option String) × Nat))
    (key : String × String) :
    Row × List ((String × Option String) × Nat) :=
  let series := key.1
  let uid := key.2
  let k4 := (sk, f, series, uid)
  let fineMod := (alookup a.mods k4).getD ""
  let img3 := (alookup a.imgtypes k4).getD ""
  -- include = 1 except scout/report/physlog
  let incl : Nat :=
    if fineMod = "scout" ∨ fineMod = "report" ∨
        substrB "physlog" (lowerStr series) = true then 0 else 1
  -- scout duplicates are counted by description alone
  let repKey : String × Option String :=
    if fineMod = "scout" then (series, none) else (series, some img3)
  let repCtr' := bump repCtr repKey
  let c := (alookup repCtr' repKey).getD 0
  ( { subject := if firstRow then dm.GivenName else ""
      BIDS_name := bname
      session := session
      source_folder := f
      incl := incl
      sequence := series
      series_uid := uid
      rep := if 1 < c then some c else none
      acq_time := (alookup a.acqTimes k4).getD ""
      image_type := img3
      modality := fineMod
      modality_bids := modality_to_container fineMod
      n_files := (alookup a.counts k4).getD 0
      GivenName := dm.GivenName
      FamilyName := dm.FamilyName
      PatientID := dm.PatientID
      PatientSex := dm.PatientSex
      PatientAge := dm.PatientAge
      StudyDescription := dm.StudyDescription },
    repCtr' )

/-- The loop over the series keys of one folder. -/
def rowsForKeys (a : Agg) (bname sk f session : String) (dm : Demo) :
    List (String × String) → Bool → List ((String × Option String) × Nat) →
    List Row × Bool
  | [], firstRow, _ => ([], firstRow)
  | k :: ks, firstRow, repCtr =>
    let pr := rowFor a bname sk f session dm firstRow repCtr k
    let rest := rowsForKeys a bname sk f session dm ks false pr.2
    (pr.1 :: rest.1, rest.2)

/-- The loop over the folders of one subject (the `rep_counter` is reset per
folder, the `first_row` flag spans the whole subject). -/
def rowsForFolders (a : Agg) (bname sk : String) (dm : Demo) :
    List String → Bool → List Row × Bool
  | [], firstRow => ([], firstRow)
  | f :: fs, firstRow =>
    let pr :=
      rowsForKeys a bname sk f (sessionOf a sk f) dm (seriesKeys a sk f)
        firstRow []
    let rest := rowsForFolders a bname sk dm fs pr.2
    (pr.1 ++ rest.1, rest.2)

/-- PASS 3: all rows, before field-map consolidation. -/
def buildRows (obs : List Obs) : List Row :=
  let a := aggregate obs
  (subjKeysSorted a).flatMap
    (fun sk =>
      (rowsForFolders a (bidsName obs sk) sk ((alookup a.demo sk).getD defaultDemo)
        (foldersOf a sk) true).1)

/-! ### Field-map consolidation -/

/-- The `groupby` key: base columns plus the acquisition time truncated to
its first four characters. -/
def fmapKey (r : Row) : String × String × String × String × String :=
  (r.BIDS_name, r.session, r.source_folder, r.sequence, take4 r.acq_time)

/-- The base columns used for re-sorting and repetition numbering. -/
def baseKey (r : Row) : String × String × String × String :=
  (r.BIDS_name, r.session, r.source_folder, r.sequence)

/-- Python tuple order on the 5-component group key. -/
def key5LeB (a b : String × String × String × String × String) : Bool :=
  if a.1 = b.1 then
    if a.2.1 = b.2.1 then
      if a.2.2.1 = b.2.2.1 then
        if a.2.2.2.1 = b.2.2.2.1 then leStrB a.2.2.2.2 b.2.2.2.2
        else ltCharsB a.2.2.2.1.data b.2.2.2.1.data
      else ltCharsB a.2.2.1.data b.2.2.1.data
    else ltCharsB a.2.1.data b.2.1.data
  else ltCharsB a.1.data b.1.data

def key5Le (a b : String × String × String × String × String) : Prop :=
  key5LeB a b = true

instance : DecidableRel key5Le := fun a b => inferInstanceAs (Decidable (_ = true))

/-- `sort_values(base_cols + ["acq_time"])` order on merged rows. -/
def acqLe (r1 r2 : Row) : Prop :=
  key5Le (r1.BIDS_name, r1.session, r1.source_folder, r1.sequence, r1.acq_time)
    (r2.BIDS_name, r2.session, r2.source_folder, r2.sequence, r2.acq_time)

instance : DecidableRel acqLe := fun _ _ => inferInstanceAs (Decidable (key5Le _ _))

/-- The aggregation applied to one group: uids unioned and sorted, image-type
tags unioned, sorted and concatenated, file counts summed, include flags
maximised, all remaining columns from the first group member. -/
def mergeGroup : List Row → Row
  | [] => defaultRow
  | r0 :: rest =>
    let g := r0 :: rest
    { subject := r0.subject
      BIDS_name := r0.BIDS_name
      session := r0.session
      source_folder := r0.source_folder
      incl := g.foldl (fun m r => Nat.max m r.incl) 0
      sequence := r0.sequence
      series_uid :=
        joinSep "|" (List.insertionSort strLe (g.map (fun r => r.series_uid)).dedup)
      rep := none          -- the `rep` column is dropped by `.agg` and rebuilt
      acq_time := r0.acq_time
      image_type :=
        joinSep "" (List.insertionSort strLe (g.map (fun r => r.image_type)).dedup)
      modality := r0.modality
      modality_bids := r0.modality_bids
      n_files := g.foldl (fun n r => n + r.n_files) 0
      GivenName := r0.GivenName
      FamilyName := r0.FamilyName
      PatientID := r0.PatientID
      PatientSex := r0.PatientSex
      PatientAge := r0.PatientAge
      StudyDescription := r0.StudyDescription }

/-- `groupby(base_cols).cumcount() + 1`, blanked where the per-base-key group
has a single member (`transform("count") > 1`). -/
def repsGo (all : List Row) (pre : List Row) : List Row → List Row
  | [] => []
  | r :: rest =>
    let cnt := (all.filter (fun x => baseKey x = baseKey r)).length
    let pos := (pre.filter (fun x => baseKey x = baseKey r)).length + 1
    { r with rep := if 1 < cnt then some pos else none } ::
      repsGo all (pre ++ [r]) rest

def assignFmapReps (rs : List Row) : List Row := repsGo rs [] rs

/-- The field-map consolidation block: group the `modality == "fmap"` rows by
`fmapKey` (`groupby` sorts its keys and keeps within-group input order),
aggregate each group, re-sort by base columns plus acquisition time, number
the repetitions, and append after the untouched non-field-map rows. -/
def consolidate (rows : List Row) : List Row :=
  let fm := rows.filter (fun r => r.modality = "fmap")
  if fm.isEmpty then rows
  else
    let keep := rows.filter (fun r => ¬ r.modality = "fmap")
    let keys := List.insertionSort key5Le (fm.map fmapKey).dedup
    let merged := keys.map (fun k => mergeGroup (fm.filter (fun r => fmapKey r = k)))
    keep ++ assignFmapReps (List.insertionSort acqLe merged)

/-- Final stable sort by `(StudyDescription, BIDS_name)`. -/
def finalLe (r1 r2 : Row) : Prop :=
  pairLe (r1.StudyDescription, r1.BIDS_name) (r2.StudyDescription, r2.BIDS_name)

instance : DecidableRel finalLe := fun _ _ => inferInstanceAs (Decidable (pairLe _ _))

/-- The complete post-decode pipeline of `scan_dicoms_long`: aggregation,
identity assignment, row building, field-map consolidation, final sort. -/
def pipeline (obs : List Obs) : List Row :=
  List.insertionSort finalLe (consolidate (buildRows obs))

/-! ## Theorems for the claims -/

/-- C10: age parsing for the participant-demographics file.  For every input
string whose first characters are digits, the result is those leading digits
with leading zeros stripped, and `"0"` when the digits are all zeros
(`"032Y" → "32"`, `"000Y" → "0"`); for every input that does not start with
a digit, the input string is returned unchanged. -/
theorem claim_C10 :
    (∀ s : String, parseAge s = parseAgeClaim s) ∧
    parseAge "032Y" = "32" ∧ parseAge "000Y" = "0" ∧ parseAge "n/a" = "n/a" := by
  refine ⟨fun s => ?_, rfl, rfl, rfl⟩
  cases s with
  | mk data =>
    cases data with
    | nil => rfl
    | cons c cs =>
      by_cases hd : c.isDigit
      · simp [parseAge, parseAgeClaim, List.takeWhile, hd]
      · simp [parseAge, parseAgeClaim, List.takeWhile, hd]

/-- C3 (counterexample): the field-map sub-tag classifier returns `"P"` on
its phase reference sequence, but that reference sequence has four elements,
not five as the claim states. -/
theorem claim_C3_counterexample :
    classify_fieldmap_type ["ORIGINAL", "PRIMARY", "P", "ND"] = "P" ∧
    PHASE_IMGTYPE = ["ORIGINAL", "PRIMARY", "P", "ND"] ∧
    PHASE_IMGTYPE.length ≠ 5 := by
  refine ⟨rfl, rfl, by decide⟩

/-- C3 (amended): field-map sub-tag classification compares the normalized
image-type sequence for exact equality against two fixed reference
sequences — a 5-element magnitude pattern and a 4-element phase pattern —
returning `"M"`, `"P"`, or empty; when it returns empty, the tag used
downstream falls back to the element at index 2 of the normalized sequence,
or the empty string when the sequence has fewer than three elements. -/
theorem claim_C3_amended :
    (∀ l : List String,
      classify_fieldmap_type l =
        (if l = MAGNITUDE_IMGTYPE then "M"
         else if l = PHASE_IMGTYPE then "P" else "") ∧
      imgTagOf l =
        (if l = MAGNITUDE_IMGTYPE then "M"
         else if l = PHASE_IMGTYPE then "P"
         else l.getD 2 "")) ∧
    MAGNITUDE_IMGTYPE.length = 5 ∧ PHASE_IMGTYPE.length = 4 := by
  refine ⟨fun l => ⟨rfl, ?_⟩, rfl, rfl⟩
  by_cases hM : l = MAGNITUDE_IMGTYPE
  · subst hM; decide
  · by_cases hP : l = PHASE_IMGTYPE
    · subst hP; decide
    · simp [imgTagOf, classify_fieldmap_type, hM, hP]

/-- C8: image-type normalization is total over its three accepted input
forms — a native ordered sequence, a backslash-delimited string, and a
bracket/quote-delimited textual rendering of a sequence — returning in each
case the ordered sequence of trimmed component strings; empty input (`None`,
the empty string, or a whitespace-only string) yields the empty sequence. -/
theorem claim_C8 :
    (∀ xs : List String, normalize_image_type (.seq xs) = xs.map trimStr) ∧
    (∀ s : String, s.data.contains '\\' = true →
      normalize_image_type (.str s) = (splitStr '\\' s).map trimStr) ∧
    (∀ s : String, s.data.contains '\\' = false →
      (startsWithB (trimStr s) "[" && endsWithB (trimStr s) "]") = true →
      normalize_image_type (.str s) =
        (splitStr ',' (String.mk (((trimStr s).data.drop 1).dropLast))).map
          (fun p => stripQuotes (trimStr p))) ∧
    normalize_image_type .null = [] ∧
    normalize_image_type (.str "") = [] ∧
    (∀ s : String, s.data.contains '\\' = false → trimStr s = "" →
      normalize_image_type (.str s) = []) := by
  refine ⟨fun xs => rfl, fun s hb => ?_, fun s hb hbr => ?_, rfl, rfl,
    fun s hb ht => ?_⟩
  · have hb' : '\\' ∈ s.data := by simpa using hb
    simp [normalize_image_type, hb']
  · have hb' : '\\' ∉ s.data := by simpa using hb
    have h1 : startsWithB (trimStr s) "[" = true :=
      ((Bool.and_eq_true _ _).mp hbr).1
    have h2 : endsWithB (trimStr s) "]" = true :=
      ((Bool.and_eq_true _ _).mp hbr).2
    simp [normalize_image_type, hb', h1, h2]
  · have hb' : '\\' ∉ s.data := by simpa using hb
    have hbF : (startsWithB "" "[" && endsWithB "" "]") = false := rfl
    simp [normalize_image_type, hb', ht, hbF]

/-- C8 (witness): the three accepted encodings evaluated at concrete
inputs. -/
theorem claim_C8_witness :
    normalize_image_type (.str "ORIGINAL\\PRIMARY\\M ") =
      ["ORIGINAL", "PRIMARY", "M"] ∧
    normalize_image_type (.str " ['ORIGINAL', 'PRIMARY', 'M'] ") =
      ["ORIGINAL", "PRIMARY", "M"] ∧
    normalize_image_type (.str "   ") = [] := by
  refine ⟨?_, ?_, ?_⟩
  · rw [claim_C8.2.1 _ (by rfl)]; rfl
  · rw [claim_C8.2.2.1 _ (by rfl) (by rfl)]; rfl
  · rw [claim_C8.2.2.2.2.2 _ (by rfl) (by rfl)]

/-- The scanning loop returns the label of the first matching entry of the
table (witnessed by an index), or `"unknown"` when no entry matches. -/
theorem guessModalityAux_first (s : String) :
    ∀ tbl : List (String × List String),
      (∃ i, i < tbl.length ∧
        matchesEntry s (tbl.getD i ("", [])).2 = true ∧
        guessModalityAux s tbl = (tbl.getD i ("", [])).1 ∧
        ∀ j, j < i → matchesEntry s (tbl.getD j ("", [])).2 = false) ∨
      (guessModalityAux s tbl = "unknown" ∧
        ∀ i, i < tbl.length → matchesEntry s (tbl.getD i ("", [])).2 = false) := by
  intro tbl
  induction tbl with
  | nil => exact Or.inr ⟨rfl, fun i hi => absurd hi (Nat.not_lt_zero i)⟩
  | cons e rest ih =>
    by_cases h : matchesEntry s e.2 = true
    · refine Or.inl ⟨0, Nat.succ_pos _, ?_, ?_, fun j hj => absurd hj (Nat.not_lt_zero j)⟩
      · simpa using h
      · simp [guessModalityAux, h]
    · have hfalse : matchesEntry s e.2 = false := by
        cases hm : matchesEntry s e.2 with
        | true => exact absurd hm h
        | false => rfl
      have hstep : guessModalityAux s (e :: rest) = guessModalityAux s rest := by
        cases e with
        | mk label pats =>
          simp only [guessModalityAux]
          rw [if_neg]
          intro hc
          exact h hc
      rcases ih with ⟨i, hi, hm, hg, hjs⟩ | ⟨hg, hall⟩
      · refine Or.inl ⟨i + 1, Nat.succ_lt_succ hi, ?_, ?_, ?_⟩
        · simpa using hm
        · rw [hstep]; simpa using hg
        · intro j hj
          cases j with
          | zero => simpa using hfalse
          | succ j' =>
            have : j' < i := Nat.lt_of_succ_lt_succ hj
            simpa using hjs j' this
      · refine Or.inr ⟨by rw [hstep]; exact hg, ?_⟩
        intro i hi
        cases i with
        | zero => simpa using hfalse
        | succ i' =>
          have : i' < rest.length := Nat.lt_of_succ_lt_succ hi
          simpa using hall i' this

/-- C1: for every description string, classification lower-cases the
description and scans the pattern table in its defined order, returning the
label of the first entry any of whose patterns occurs as a substring, and
returning `"unknown"` when no pattern of any entry matches; in particular a
description containing substrings from two categories (here `"mprage"` of
`T1w` and `"phase"` of `fmap`) is classified as the category appearing
earlier in the table. -/
theorem claim_C1 :
    (∀ series : String,
      (∃ i, i < BIDS_PATTERNS.length ∧
        matchesEntry (lowerStr series) (BIDS_PATTERNS.getD i ("", [])).2 = true ∧
        guessModality series = (BIDS_PATTERNS.getD i ("", [])).1 ∧
        ∀ j, j < i →
          matchesEntry (lowerStr series) (BIDS_PATTERNS.getD j ("", [])).2 = false) ∨
      (guessModality series = "unknown" ∧
        ∀ i, i < BIDS_PATTERNS.length →
          matchesEntry (lowerStr series) (BIDS_PATTERNS.getD i ("", [])).2 = false)) ∧
    guessModality "MPRAGE phase" = "T1w" ∧
    guessModality "phase" = "fmap" ∧
    guessModality "no pattern here" = "unknown" := by
  exact ⟨fun series => guessModalityAux_first (lowerStr series) BIDS_PATTERNS,
    rfl, rfl, rfl⟩

/-! ### Order theory for the string comparison used by `sorted` -/

theorem charEq_of_toNat_eq {a b : Char} (h : a.toNat = b.toNat) : a = b :=
  Char.ext (UInt32.ext h)

theorem ltCharsB_irrefl : ∀ l : List Char, ltCharsB l l = false := by
  intro l
  induction l with
  | nil => rfl
  | cons a as ih => simp [ltCharsB, ih]

theorem ltCharsB_asymm : ∀ l1 l2 : List Char,
    ltCharsB l1 l2 = true → ltCharsB l2 l1 = true → False := by
  intro l1
  induction l1 with
  | nil =>
    intro l2 h1 h2
    cases l2 with
    | nil => simp [ltCharsB] at h1
    | cons b bs => simp [ltCharsB] at h2
  | cons a as ih =>
    intro l2 h1 h2
    cases l2 with
    | nil => simp [ltCharsB] at h1
    | cons b bs =>
      simp only [ltCharsB] at h1 h2
      by_cases hab : a.toNat < b.toNat
      · have hba : ¬ b.toNat < a.toNat := Nat.lt_asymm hab
        rw [if_neg hba, if_pos hab] at h2
        simp at h2
      · by_cases hba : b.toNat < a.toNat
        · rw [if_neg hab, if_pos hba] at h1
          simp at h1
        · rw [if_neg hab, if_neg hba] at h1
          rw [if_neg hba, if_neg hab] at h2
          exact ih bs h1 h2

theorem ltCharsB_trans : ∀ l1 l2 l3 : List Char,
    ltCharsB l1 l2 = true → ltCharsB l2 l3 = true → ltCharsB l1 l3 = true := by
  intro l1
  induction l1 with
  | nil =>
    intro l2 l3 h1 h2
    cases l2 with
    | nil => simp [ltCharsB] at h1
    | cons b bs =>
      cases l3 with
      | nil => simp [ltCharsB] at h2
      | cons c cs => rfl
  | cons a as ih =>
    intro l2 l3 h1 h2
    cases l2 with
    | nil => simp [ltCharsB] at h1
    | cons b bs =>
      cases l3 with
      | nil => simp [ltCharsB] at h2
      | cons c cs =>
        simp only [ltCharsB] at h1 h2 ⊢
        by_cases hab : a.toNat < b.toNat
        · by_cases hbc : b.toNat < c.toNat
          · rw [if_pos (Nat.lt_trans hab hbc)]
          · rw [if_neg hbc] at h2
            by_cases hcb : c.toNat < b.toNat
            · rw [if_pos hcb] at h2; simp at h2
            · have hval : b.toNat = c.toNat :=
                Nat.le_antisymm (Nat.le_of_not_lt hcb) (Nat.le_of_not_lt hbc)
              rw [if_pos (hval ▸ hab)]
        · rw [if_neg hab] at h1
          by_cases hba : b.toNat < a.toNat
          · rw [if_pos hba] at h1; simp at h1
          · rw [if_neg hba] at h1
            have hvab : a.toNat = b.toNat :=
              Nat.le_antisymm (Nat.le_of_not_lt hba) (Nat.le_of_not_lt hab)
            by_cases hbc : b.toNat < c.toNat
            · rw [if_pos (hvab ▸ hbc)]
            · rw [if_neg hbc] at h2
              by_cases hcb : c.toNat < b.toNat
              · rw [if_pos hcb] at h2; simp at h2
              · rw [if_neg hcb] at h2
                rw [if_neg (hvab ▸ hbc), if_neg (hvab ▸ hcb)]
                exact ih bs cs h1 h2

theorem ltCharsB_total : ∀ l1 l2 : List Char,
    ltCharsB l1 l2 = true ∨ l1 = l2 ∨ ltCharsB l2 l1 = true := by
  intro l1
  induction l1 with
  | nil =>
    intro l2
    cases l2 with
    | nil => exact Or.inr (Or.inl rfl)
    | cons b bs => exact Or.inl rfl
  | cons a as ih =>
    intro l2
    cases l2 with
    | nil => exact Or.inr (Or.inr rfl)
    | cons b bs =>
      rcases Nat.lt_trichotomy a.toNat b.toNat with hab | hab | hab
      · exact Or.inl (by simp [ltCharsB, hab])
      · have hcc : a = b := charEq_of_toNat_eq hab
        subst hcc
        rcases ih bs with h | h | h
        · exact Or.inl (by simp [ltCharsB, h])
        · exact Or.inr (Or.inl (by rw [h]))
        · exact Or.inr (Or.inr (by simp [ltCharsB, h]))
      · refine Or.inr (Or.inr ?_)
        simp only [ltCharsB]
        rw [if_pos hab]

theorem strDataEq {a b : String} (h : a.data = b.data) : a = b :=
  congrArg String.mk h

instance : IsTotal String strLe where
  total := by
    intro a b
    by_cases hab : a = b
    · exact Or.inl (by simp [strLe, leStrB, hab])
    · rcases ltCharsB_total a.data b.data with h | h | h
      · exact Or.inl (by simp [strLe, leStrB, h])
      · exact absurd (strDataEq h) hab
      · exact Or.inr (by simp [strLe, leStrB, h])

instance : IsTrans String strLe where
  trans := by
    intro a b c hab hbc
    simp only [strLe, leStrB, Bool.or_eq_true, decide_eq_true_eq] at hab hbc ⊢
    rcases hab with hab | hab
    · subst hab; exact hbc
    · rcases hbc with hbc | hbc
      · subst hbc; exact Or.inr hab
      · exact Or.inr (ltCharsB_trans _ _ _ hab hbc)

instance : IsAntisymm String strLe where
  antisymm := by
    intro a b hab hba
    simp only [strLe, leStrB, Bool.or_eq_true, decide_eq_true_eq] at hab hba
    rcases hab with hab | hab
    · exact hab
    · rcases hba with hba | hba
      · exact hba.symm
      · exact (ltCharsB_asymm _ _ hab hba).elim

theorem dedup_toFinset_eq {α : Type} [DecidableEq α] (l : List α) :
    l.dedup.toFinset = l.toFinset := by
  apply Finset.ext
  intro a
  simp [List.mem_toFinset, List.mem_dedup]

/-- Sorting the de-duplicated list is a pure function of the underlying set. -/
theorem sortDedup_eq_of_toFinset_eq {l1 l2 : List String}
    (h : l1.toFinset = l2.toFinset) :
    List.insertionSort strLe l1.dedup = List.insertionSort strLe l2.dedup := by
  apply List.eq_of_perm_of_sorted (r := strLe)
  · refine (List.perm_insertionSort strLe l1.dedup).trans
      (List.Perm.trans ?_ (List.perm_insertionSort strLe l2.dedup).symm)
    apply List.perm_of_nodup_nodup_toFinset_eq (List.nodup_dedup l1)
      (List.nodup_dedup l2)
    rw [dedup_toFinset_eq, dedup_toFinset_eq, h]
  · exact List.sorted_insertionSort strLe l1.dedup
  · exact List.sorted_insertionSort strLe l2.dedup

/-- C5: subject-code assignment is, per study, a pure function of the
de-duplicated set of raw subject identifiers: the distinct identifiers are
sorted lexicographically and given sequential codes `sub-001`, `sub-002`, …
starting at 1; identifiers `{"Bob", "Alice"}` yield `Alice → sub-001` and
`Bob → sub-002`. -/
theorem claim_C5 :
    (∀ (l1 l2 : List String) (s : String), l1.toFinset = l2.toFinset →
      bidsOf l1 s = bidsOf l2 s) ∧
    bidsOf ["Bob", "Alice"] "Alice" = "sub-001" ∧
    bidsOf ["Bob", "Alice"] "Bob" = "sub-002" := by
  refine ⟨fun l1 l2 s h => ?_, rfl, rfl⟩
  unfold bidsOf
  rw [sortDedup_eq_of_toFinset_eq h]

/-- C5 (witness): two different identifier lists with the same underlying set
assign the same code, evaluated concretely. -/
theorem claim_C5_witness :
    bidsOf ["Bob", "Alice", "Bob"] "Alice" = bidsOf ["Alice", "Bob"] "Alice" ∧
    bidsOf ["Bob", "Alice", "Bob"] "Alice" = "sub-001" := by
  refine ⟨claim_C5.1 _ _ _ (by decide), rfl⟩

/-! ### Characterization of the aggregation loop (claim C7) -/

theorem alookup_setVal {κ β : Type} [DecidableEq κ] (m : List (κ × β)) (k : κ)
    (v : β) (k' : κ) :
    alookup (setVal m k v) k' = if k' = k then some v else alookup m k' := by
  induction m with
  | nil =>
    by_cases h : k = k'
    · subst h; simp [setVal, alookup]
    · simp [setVal, alookup, h, Ne.symm h]
  | cons p rest ih =>
    obtain ⟨k0, w⟩ := p
    by_cases h0 : k0 = k
    · subst h0
      by_cases h1 : k0 = k'
      · subst h1; simp [setVal, alookup]
      · simp [setVal, alookup, h1, Ne.symm h1]
    · by_cases h1 : k0 = k'
      · subst h1
        simp [setVal, alookup, h0, Ne.symm h0]
      · simp [setVal, alookup, h0, h1, ih]

theorem alookup_setIfAbsent {κ β : Type} [DecidableEq κ] (m : List (κ × β))
    (k : κ) (v : β) (k' : κ) :
    alookup (setIfAbsent m k v) k' =
      match alookup m k' with
      | some w => some w
      | none => if k' = k then some v else none := by
  unfold setIfAbsent
  cases hk : alookup m k with
  | some w =>
    cases hk' : alookup m k' with
    | some w' => rfl
    | none =>
      by_cases h : k' = k
      · subst h; rw [hk] at hk'; exact absurd hk' (by simp)
      · simp [h]
  | none =>
    rw [alookup_setVal]
    cases hk' : alookup m k' with
    | some w' =>
      by_cases h : k' = k
      · subst h; rw [hk] at hk'; exact absurd hk' (by simp)
      · simp [h, hk']
    | none =>
      by_cases h : k' = k
      · simp [h]
      · simp [h, hk']

theorem alookup_bump_getD {κ : Type} [DecidableEq κ] (m : List (κ × Nat))
    (k k' : κ) :
    (alookup (bump m k) k').getD 0 =
      (alookup m k').getD 0 + (if k' = k then 1 else 0) := by
  induction m with
  | nil =>
    by_cases h : k = k'
    · subst h; simp [bump, alookup]
    · simp [bump, alookup, h, Ne.symm h]
  | cons p rest ih =>
    obtain ⟨k0, w⟩ := p
    by_cases h0 : k0 = k
    · subst h0
      by_cases h1 : k0 = k'
      · subst h1; simp [bump, alookup]
      · simp [bump, alookup, h1, Ne.symm h1]
    · by_cases h1 : k0 = k'
      · subst h1
        simp [bump, alookup, h0, Ne.symm h0]
      · simp [bump, alookup, h0, h1, ih]

theorem counts_foldl (obs : List Obs) :
    ∀ (a : Agg) (k : String × String × String × String),
    (alookup ((obs.foldl stepAgg a).counts) k).getD 0 =
      (alookup a.counts k).getD 0 +
        (obs.filter (fun o => decide (keyOf o = k))).length := by
  induction obs with
  | nil => intro a k; simp
  | cons o obs ih =>
    intro a k
    rw [List.foldl_cons, ih]
    show (alookup (bump a.counts (keyOf o)) k).getD 0 + _ = _
    rw [alookup_bump_getD]
    by_cases h : keyOf o = k
    · rw [List.filter_cons_of_pos (by simp [h]), if_pos h.symm]
      simp only [List.length_cons]
      omega
    · rw [List.filter_cons_of_neg (by simp [h]), if_neg (Ne.symm h)]
      omega

theorem imgtypes_foldl (obs : List Obs) :
    ∀ (a : Agg) (k : String × String × String × String),
    alookup ((obs.foldl stepAgg a).imgtypes) k =
      match alookup a.imgtypes k with
      | some v => some v
      | none => (obs.find? (fun o => decide (keyOf o = k))).map (fun o => o.img3) := by
  induction obs with
  | nil =>
    intro a k
    simp only [List.foldl_nil]
    cases h : alookup a.imgtypes k <;> simp [h]
  | cons o obs ih =>
    intro a k
    rw [List.foldl_cons, ih]
    show (match alookup (setIfAbsent a.imgtypes (keyOf o) o.img3) k with
      | some v => some v
      | none => _) = _
    rw [alookup_setIfAbsent]
    cases hk : alookup a.imgtypes k with
    | some v => rfl
    | none =>
      by_cases h : keyOf o = k
      · rw [if_pos h.symm, List.find?_cons_of_pos _ (by simp [h])]
        rfl
      · rw [if_neg (Ne.symm h), List.find?_cons_of_neg _ (by simp [h])]

theorem acqTimes_foldl (obs : List Obs) :
    ∀ (a : Agg) (k : String × String × String × String),
    alookup ((obs.foldl stepAgg a).acqTimes) k =
      match alookup a.acqTimes k with
      | some v => some v
      | none =>
        (obs.find? (fun o => decide (keyOf o = k ∧ o.acqTime ≠ ""))).map
          (fun o => o.acqTime) := by
  induction obs with
  | nil =>
    intro a k
    simp only [List.foldl_nil]
    cases h : alookup a.acqTimes k <;> simp [h]
  | cons o obs ih =>
    intro a k
    rw [List.foldl_cons, ih]
    by_cases he : o.acqTime = ""
    · have hstep : (stepAgg a o).acqTimes = a.acqTimes := by
        simp [stepAgg, he]
      rw [hstep, List.find?_cons_of_neg _ (by simp [he])]
    · have hstep : (stepAgg a o).acqTimes =
          setIfAbsent a.acqTimes (keyOf o) o.acqTime := by
        simp [stepAgg, he]
      rw [hstep, alookup_setIfAbsent]
      cases hk : alookup a.acqTimes k with
      | some v => rfl
      | none =>
        by_cases h : keyOf o = k
        · rw [if_pos h.symm, List.find?_cons_of_pos _ (by simp [h, he])]
          rfl
        · rw [if_neg (Ne.symm h), List.find?_cons_of_neg _ (by simp [h])]

theorem demo_foldl (obs : List Obs) :
    ∀ (a : Agg) (sk : String),
    alookup ((obs.foldl stepAgg a).demo) sk =
      match alookup a.demo sk with
      | some v => some v
      | none => (obs.find? (fun o => decide (o.subjKey = sk))).map (fun o => o.demo) := by
  induction obs with
  | nil =>
    intro a sk
    simp only [List.foldl_nil]
    cases h : alookup a.demo sk <;> simp [h]
  | cons o obs ih =>
    intro a sk
    rw [List.foldl_cons, ih]
    show (match alookup (setIfAbsent a.demo o.subjKey o.demo) sk with
      | some v => some v
      | none => _) = _
    rw [alookup_setIfAbsent]
    cases hk : alookup a.demo sk with
    | some v => rfl
    | none =>
      by_cases h : o.subjKey = sk
      · rw [if_pos h.symm, List.find?_cons_of_pos _ (by simp [h])]
        rfl
      · rw [if_neg (Ne.symm h), List.find?_cons_of_neg _ (by simp [h])]

/-- C7 (counterexample): with a first observation carrying an empty
image-type tag and an empty acquisition time and a second observation (same
series key) carrying non-empty values, the aggregation records the *empty*
image-type tag of the first occurrence (a later non-empty tag never
replaces it), while the acquisition time is taken from the *second*
observation (the first occurrence with a non-empty time).  The claim's
uniform "recorded, when non-empty, at the first occurrence" is wrong for
one of the two fields under either reading. -/
theorem claim_C7_counterexample :
    alookup (aggregate
      [⟨"S||St", "f", "se", "U", "fmap", "", "", none, defaultDemo⟩,
       ⟨"S||St", "f", "se", "U", "fmap", "M", "120000", none, defaultDemo⟩]).imgtypes
      ("S||St", "f", "se", "U") = some "" ∧
    alookup (aggregate
      [⟨"S||St", "f", "se", "U", "fmap", "", "", none, defaultDemo⟩,
       ⟨"S||St", "f", "se", "U", "fmap", "M", "120000", none, defaultDemo⟩]).acqTimes
      ("S||St", "f", "se", "U") = some "120000" := ⟨rfl, rfl⟩

/-- C7 (amended): during aggregation over any observation list, for each
`(SubjectKey, folder, SeriesKey)` the file count equals the number of
observations with that key (incremented per observation); the image-type tag
is recorded at the first occurrence of the key — even when empty — and never
overwritten; the acquisition time is recorded at the first occurrence of the
key whose time is non-empty and never overwritten; the demographic snapshot
is taken at the first occurrence of a SubjectKey and never overwritten. -/
theorem claim_C7_amended :
    ∀ (obs : List Obs) (k : String × String × String × String) (sk : String),
    (alookup (aggregate obs).counts k).getD 0 =
      (obs.filter (fun o => decide (keyOf o = k))).length ∧
    alookup (aggregate obs).imgtypes k =
      (obs.find? (fun o => decide (keyOf o = k))).map (fun o => o.img3) ∧
    alookup (aggregate obs).acqTimes k =
      (obs.find? (fun o => decide (keyOf o = k ∧ o.acqTime ≠ ""))).map
        (fun o => o.acqTime) ∧
    alookup (aggregate obs).demo sk =
      (obs.find? (fun o => decide (o.subjKey = sk))).map (fun o => o.demo) := by
  intro obs k sk
  refine ⟨?_, ?_, ?_, ?_⟩
  · rw [aggregate, counts_foldl]; simp [emptyAgg, alookup]
  · rw [aggregate, imgtypes_foldl]; rfl
  · rw [aggregate, acqTimes_foldl]; rfl
  · rw [aggregate, demo_foldl]; rfl

/-! ### Claim C2: repetition numbering of non-field-map series -/

/-- Fixed demographics for the C2 scenario. -/
def demoC2 : Demo := ⟨"Giv", "Fam", "PID", "F", "030Y", "Study1"⟩

/-- One T1-weighted observation of the C2 scenario: same subject, folder,
description and image-type tag, varying series identifier and acquisition
time. -/
def obsC2 (uid t : String) : Obs :=
  ⟨"S||Study1", "f1", "mprage_run", uid, guessModality "mprage_run", "", t,
    none, demoC2⟩

set_option maxHeartbeats 2000000 in
/-- C2 (counterexample): three non-field-map series with identical
description and image-type tag but distinct series identifiers, with
acquisition times in *descending* order `"300" > "200" > "100"`.  The rows
are emitted in ascending series-identifier order with repetition indices
blank, 2, 3 — the earliest-acquired series (identifier `"C"`, time `"100"`)
receives index 3 and no row receives index 1, contradicting the claimed
`1, 2, 3` in ascending acquisition-time order. -/
theorem claim_C2_counterexample :
    (pipeline [obsC2 "A" "300", obsC2 "B" "200", obsC2 "C" "100"]).map
      (fun r => (r.series_uid, r.acq_time, r.rep)) =
      [("A", "300", none), ("B", "200", some 2), ("C", "100", some 3)] ∧
    ((pipeline [obsC2 "A" "300", obsC2 "B" "200", obsC2 "C" "100"]).map
      (fun r => r.rep)).count (some 1) = 0 := by
  exact ⟨rfl, rfl⟩


/-- The final stable sort is the identity on a row list whose rows all share
one `(StudyDescription, BIDS_name)` sort key. -/
theorem insertionSort_finalLe_const :
    ∀ (l : List Row) (x y : String),
      (∀ r ∈ l, r.StudyDescription = x ∧ r.BIDS_name = y) →
      List.insertionSort finalLe l = l := by
  intro l x y
  induction l with
  | nil => intro h; rfl
  | cons a t ih =>
    intro h
    rw [List.insertionSort, ih (fun r hr => h r (List.mem_cons_of_mem a hr))]
    cases t with
    | nil => rfl
    | cons b t' =>
      have hab : finalLe a b := by
        obtain ⟨h1a, h2a⟩ := h a (List.mem_cons_self a (b :: t'))
        obtain ⟨h1b, h2b⟩ := h b (List.mem_cons_of_mem a (List.mem_cons_self b t'))
        simp [finalLe, pairLe, pairLeB, leStrB, h1a, h2a, h1b, h2b]
      rw [List.orderedInsert, if_pos hab]

/-- Consolidation leaves a table without field-map rows untouched. -/
theorem consolidate_of_no_fmap (l : List Row)
    (h : ∀ r ∈ l, ¬ r.modality = "fmap") : consolidate l = l := by
  have hf : l.filter (fun r => decide (r.modality = "fmap")) = [] := by
    rw [List.filter_eq_nil_iff]
    intro r hr
    simpa using h r hr
  simp [consolidate, hf]

/-- Every row built for a series key carries the subject demographics, the
assigned subject code, and the fine modality looked up under its own key. -/
theorem rowsForKeys_shape (a : Agg) (bname sk f session : String) (dm : Demo) :
    ∀ (ks : List (String × String)) (fr : Bool)
      (rc : List ((String × Option String) × Nat)) (r : Row),
      r ∈ (rowsForKeys a bname sk f session dm ks fr rc).1 →
      r.StudyDescription = dm.StudyDescription ∧ r.BIDS_name = bname ∧
        ∃ k ∈ ks, r.modality = (alookup a.mods (sk, f, k.1, k.2)).getD "" := by
  intro ks
  induction ks with
  | nil => intro fr rc r h; simp [rowsForKeys] at h
  | cons k rest ih =>
    intro fr rc r h
    simp only [rowsForKeys, List.mem_cons] at h
    rcases h with h | h
    · subst h
      exact ⟨rfl, rfl, k, List.mem_cons_self k rest, rfl⟩
    · obtain ⟨h1, h2, k', hk', h3⟩ := ih false _ r h
      exact ⟨h1, h2, k', List.mem_cons_of_mem k hk', h3⟩

/-- For any subject key, folder, description, non-field-map modality,
image-type tag, session tag, demographics and acquisition times, a folder
containing exactly three series differing only in their (distinct) series
identifiers yields rows in ascending identifier order with repetition
indices blank, 2, 3 — independent of the acquisition times. -/
theorem pipeline_three_identical_series (sk f d m g : String) (st : Option String) (dm : Demo)
    (u1 u2 u3 t1 t2 t3 : String)
    (hm : m ≠ "fmap")
    (hu12 : ltCharsB u1.data u2.data = true)
    (hu23 : ltCharsB u2.data u3.data = true) :
    (pipeline
      [⟨sk, f, d, u1, m, g, t1, st, dm⟩,
       ⟨sk, f, d, u2, m, g, t2, st, dm⟩,
       ⟨sk, f, d, u3, m, g, t3, st, dm⟩]).map
        (fun r => (r.series_uid, r.rep)) =
      [(u1, none), (u2, some 2), (u3, some 3)] := by
  have hu13 : ltCharsB u1.data u3.data = true := ltCharsB_trans _ _ _ hu12 hu23
  have hne12 : u1 ≠ u2 := by
    intro hc; rw [hc, ltCharsB_irrefl] at hu12; exact Bool.false_ne_true hu12
  have hne23 : u2 ≠ u3 := by
    intro hc; rw [hc, ltCharsB_irrefl] at hu23; exact Bool.false_ne_true hu23
  have hne13 : u1 ≠ u3 := by
    intro hc; rw [hc, ltCharsB_irrefl] at hu13; exact Bool.false_ne_true hu13
  set o1 : Obs := ⟨sk, f, d, u1, m, g, t1, st, dm⟩ with ho1
  set o2 : Obs := ⟨sk, f, d, u2, m, g, t2, st, dm⟩ with ho2
  set o3 : Obs := ⟨sk, f, d, u3, m, g, t3, st, dm⟩ with ho3
  set A := aggregate [o1, o2, o3] with hA
  have h_counts : A.counts =
      [((sk, f, d, u1), 1), ((sk, f, d, u2), 1), ((sk, f, d, u3), 1)] := by
    show bump (bump (bump emptyAgg.counts (keyOf o1)) (keyOf o2)) (keyOf o3) = _
    simp [emptyAgg, bump, keyOf, ho1, ho2, ho3, Prod.mk.injEq, hne12, hne13,
      hne23]
  have h_mods : A.mods =
      [((sk, f, d, u1), m), ((sk, f, d, u2), m), ((sk, f, d, u3), m)] := by
    show setVal (setVal (setVal emptyAgg.mods (keyOf o1) o1.modality)
      (keyOf o2) o2.modality) (keyOf o3) o3.modality = _
    simp [emptyAgg, setVal, keyOf, ho1, ho2, ho3, Prod.mk.injEq, hne12, hne13,
      hne23]
  have h_demo : A.demo = [(sk, dm)] := by
    show setIfAbsent (setIfAbsent (setIfAbsent emptyAgg.demo o1.subjKey o1.demo)
      o2.subjKey o2.demo) o3.subjKey o3.demo = _
    simp [emptyAgg, setIfAbsent, alookup, setVal, ho1, ho2, ho3]
  have h_sks : subjKeysSorted A = [sk] := by
    rw [subjKeysSorted, h_counts]
    simp [List.insertionSort, List.orderedInsert, List.dedup_cons_of_mem]
  have h_folders : foldersOf A sk = [f] := by
    rw [foldersOf, h_counts]
    simp [List.filterMap, List.insertionSort, List.orderedInsert,
      List.dedup_cons_of_mem]
  have h_keys : seriesKeys A sk f = [(d, u1), (d, u2), (d, u3)] := by
    rw [seriesKeys, h_counts]
    have hd1 : (d, u1) ∉ [(d, u2), (d, u3)] := by simp [hne12, hne13]
    have hd2 : (d, u2) ∉ [(d, u3)] := by simp [hne23]
    have hp12 : pairLe (d, u1) (d, u2) := by simp [pairLe, pairLeB, leStrB, hu12]
    have hp23 : pairLe (d, u2) (d, u3) := by simp [pairLe, pairLeB, leStrB, hu23]
    simp only [List.filterMap, eq_self_iff_true, and_self, if_pos, if_true]
    rw [List.dedup_cons_of_not_mem hd1, List.dedup_cons_of_not_mem hd2]
    simp [List.insertionSort, List.orderedInsert, hp12, hp23]
  have h_img : A.imgtypes =
      [((sk, f, d, u1), g), ((sk, f, d, u2), g), ((sk, f, d, u3), g)] := by
    show setIfAbsent (setIfAbsent (setIfAbsent emptyAgg.imgtypes
      (keyOf o1) o1.img3) (keyOf o2) o2.img3) (keyOf o3) o3.img3 = _
    simp [emptyAgg, setIfAbsent, alookup, setVal, keyOf, ho1, ho2, ho3,
      Prod.mk.injEq, hne12, hne13, hne23]
  have hl1 : (alookup A.mods (sk, f, d, u1)).getD "" = m := by
    rw [h_mods]; simp [alookup]
  have hl2 : (alookup A.mods (sk, f, d, u2)).getD "" = m := by
    rw [h_mods]; simp [alookup, Prod.mk.injEq, hne12]
  have hl3 : (alookup A.mods (sk, f, d, u3)).getD "" = m := by
    rw [h_mods]; simp [alookup, Prod.mk.injEq, hne13, hne23]
  have hg1 : (alookup A.imgtypes (sk, f, d, u1)).getD "" = g := by
    rw [h_img]; simp [alookup]
  have hg2 : (alookup A.imgtypes (sk, f, d, u2)).getD "" = g := by
    rw [h_img]; simp [alookup, Prod.mk.injEq, hne12]
  have hg3 : (alookup A.imgtypes (sk, f, d, u3)).getD "" = g := by
    rw [h_img]; simp [alookup, Prod.mk.injEq, hne13, hne23]
  set bname := bidsName [o1, o2, o3] sk with hbn
  set sess := sessionOf A sk f with hsess
  have h_build : buildRows [o1, o2, o3] =
      (rowsForKeys A bname sk f sess dm [(d, u1), (d, u2), (d, u3)] true []).1 := by
    simp only [buildRows]
    rw [← hA, h_sks]
    simp only [List.flatMap_cons, List.flatMap_nil, List.append_nil]
    rw [h_folders, h_demo]
    simp only [alookup, if_pos rfl, Option.getD_some, rowsForFolders]
    rw [h_keys]
    rfl
  have h_proj : ((rowsForKeys A bname sk f sess dm
      [(d, u1), (d, u2), (d, u3)] true []).1).map
        (fun r => (r.series_uid, r.rep)) =
      [(u1, none), (u2, some 2), (u3, some 3)] := by
    by_cases hsc : m = "scout" <;>
      simp [rowsForKeys, rowFor, hl1, hl2, hl3, hg1, hg2, hg3, bump, alookup,
        hsc]
  have h_nofmap : ∀ r ∈ (rowsForKeys A bname sk f sess dm
      [(d, u1), (d, u2), (d, u3)] true []).1, ¬ r.modality = "fmap" := by
    intro r hr
    obtain ⟨_, _, k, hk, hmod⟩ :=
      rowsForKeys_shape A bname sk f sess dm _ true [] r hr
    simp only [List.mem_cons, List.not_mem_nil, or_false] at hk
    rcases hk with rfl | rfl | rfl
    · rw [hmod]; exact fun hc => hm (hl1 ▸ hc)
    · rw [hmod]; exact fun hc => hm (hl2 ▸ hc)
    · rw [hmod]; exact fun hc => hm (hl3 ▸ hc)
  have h_const : ∀ r ∈ (rowsForKeys A bname sk f sess dm
      [(d, u1), (d, u2), (d, u3)] true []).1,
      r.StudyDescription = dm.StudyDescription ∧ r.BIDS_name = bname := by
    intro r hr
    obtain ⟨h1, h2, _⟩ := rowsForKeys_shape A bname sk f sess dm _ true [] r hr
    exact ⟨h1, h2⟩
  have h_pipe : pipeline [o1, o2, o3] =
      (rowsForKeys A bname sk f sess dm [(d, u1), (d, u2), (d, u3)] true []).1 := by
    simp only [pipeline]
    rw [h_build, consolidate_of_no_fmap _ h_nofmap,
      insertionSort_finalLe_const _ dm.StudyDescription bname h_const]
  rw [h_pipe]
  exact h_proj


/-- A folder containing a single non-field-map series yields a blank
repetition index, for any field values. -/
theorem pipeline_single_series (sk f d m g : String) (st : Option String) (dm : Demo)
    (u t : String) (hm : m ≠ "fmap") :
    (pipeline [⟨sk, f, d, u, m, g, t, st, dm⟩]).map (fun r => r.rep) =
      [none] := by
  set o1 : Obs := ⟨sk, f, d, u, m, g, t, st, dm⟩ with ho1
  set A := aggregate [o1] with hA
  have h_counts : A.counts = [((sk, f, d, u), 1)] := by
    show bump emptyAgg.counts (keyOf o1) = _
    simp [emptyAgg, bump, keyOf, ho1]
  have h_mods : A.mods = [((sk, f, d, u), m)] := by
    show setVal emptyAgg.mods (keyOf o1) o1.modality = _
    simp [emptyAgg, setVal, keyOf, ho1]
  have h_img : A.imgtypes = [((sk, f, d, u), g)] := by
    show setIfAbsent emptyAgg.imgtypes (keyOf o1) o1.img3 = _
    simp [emptyAgg, setIfAbsent, alookup, setVal, keyOf, ho1]
  have h_demo : A.demo = [(sk, dm)] := by
    show setIfAbsent emptyAgg.demo o1.subjKey o1.demo = _
    simp [emptyAgg, setIfAbsent, alookup, setVal, ho1]
  have h_sks : subjKeysSorted A = [sk] := by
    rw [subjKeysSorted, h_counts]
    simp [List.insertionSort, List.orderedInsert]
  have h_folders : foldersOf A sk = [f] := by
    rw [foldersOf, h_counts]
    simp [List.filterMap, List.insertionSort, List.orderedInsert]
  have h_keys : seriesKeys A sk f = [(d, u)] := by
    rw [seriesKeys, h_counts]
    simp [List.filterMap, List.insertionSort, List.orderedInsert]
  have hl1 : (alookup A.mods (sk, f, d, u)).getD "" = m := by
    rw [h_mods]; simp [alookup]
  have hg1 : (alookup A.imgtypes (sk, f, d, u)).getD "" = g := by
    rw [h_img]; simp [alookup]
  set bname := bidsName [o1] sk with hbn
  set sess := sessionOf A sk f with hsess
  have h_build : buildRows [o1] =
      (rowsForKeys A bname sk f sess dm [(d, u)] true []).1 := by
    simp only [buildRows]
    rw [← hA, h_sks]
    simp only [List.flatMap_cons, List.flatMap_nil, List.append_nil]
    rw [h_folders, h_demo]
    simp only [alookup, if_pos rfl, Option.getD_some, rowsForFolders]
    rw [h_keys]
    rfl
  have h_proj : ((rowsForKeys A bname sk f sess dm [(d, u)] true []).1).map
      (fun r => r.rep) = [none] := by
    by_cases hsc : m = "scout" <;>
      simp [rowsForKeys, rowFor, hl1, hg1, bump, alookup, hsc]
  have h_nofmap : ∀ r ∈ (rowsForKeys A bname sk f sess dm [(d, u)] true []).1,
      ¬ r.modality = "fmap" := by
    intro r hr
    obtain ⟨_, _, k, hk, hmod⟩ :=
      rowsForKeys_shape A bname sk f sess dm _ true [] r hr
    simp only [List.mem_cons, List.not_mem_nil, or_false] at hk
    subst hk
    rw [hmod]
    exact fun hc => hm (hl1 ▸ hc)
  have h_const : ∀ r ∈ (rowsForKeys A bname sk f sess dm [(d, u)] true []).1,
      r.StudyDescription = dm.StudyDescription ∧ r.BIDS_name = bname := by
    intro r hr
    obtain ⟨h1, h2, _⟩ := rowsForKeys_shape A bname sk f sess dm _ true [] r hr
    exact ⟨h1, h2⟩
  have h_pipe : pipeline [o1] =
      (rowsForKeys A bname sk f sess dm [(d, u)] true []).1 := by
    simp only [pipeline]
    rw [h_build, consolidate_of_no_fmap _ h_nofmap,
      insertionSort_finalLe_const _ dm.StudyDescription bname h_const]
  rw [h_pipe]
  exact h_proj


set_option maxHeartbeats 2000000 in
/-- C2 (amended): for any subject and folder containing exactly three
non-field-map series with identical description and image-type tag but
distinct series identifiers (named here in ascending order), the rows are
emitted in ascending `(description, series-identifier)` order — independent
of the acquisition times — and carry repetition indices blank, 2 and 3 (the
running counter is shown only once it exceeds 1, so the first row of the
group stays blank); when only one such series exists its repetition index is
blank. -/
theorem claim_C2_amended :
    (∀ (sk f d m g : String) (st : Option String) (dm : Demo)
      (u1 u2 u3 t1 t2 t3 : String),
      m ≠ "fmap" →
      ltCharsB u1.data u2.data = true →
      ltCharsB u2.data u3.data = true →
      (pipeline
        [⟨sk, f, d, u1, m, g, t1, st, dm⟩,
         ⟨sk, f, d, u2, m, g, t2, st, dm⟩,
         ⟨sk, f, d, u3, m, g, t3, st, dm⟩]).map
          (fun r => (r.series_uid, r.rep)) =
        [(u1, none), (u2, some 2), (u3, some 3)]) ∧
    (∀ (sk f d m g : String) (st : Option String) (dm : Demo) (u t : String),
      m ≠ "fmap" →
      (pipeline [⟨sk, f, d, u, m, g, t, st, dm⟩]).map (fun r => r.rep) =
        [none]) :=
  ⟨fun sk f d m g st dm u1 u2 u3 t1 t2 t3 hm hu12 hu23 =>
    pipeline_three_identical_series sk f d m g st dm u1 u2 u3 t1 t2 t3 hm
      hu12 hu23,
   fun sk f d m g st dm u t hm => pipeline_single_series sk f d m g st dm u t hm⟩

set_option maxHeartbeats 2000000 in
/-- C2 (amended, witness): the amended repetition-numbering theorem applied
to three concrete series with acquisition times in descending order, and to
a single concrete series. -/
theorem claim_C2_witness :
    (pipeline
      [⟨"S||Study1", "f1", "mprage_run", "A", "T1w", "", "300", none, demoC2⟩,
       ⟨"S||Study1", "f1", "mprage_run", "B", "T1w", "", "200", none, demoC2⟩,
       ⟨"S||Study1", "f1", "mprage_run", "C", "T1w", "", "100", none, demoC2⟩]).map
        (fun r => (r.series_uid, r.rep)) =
      [("A", none), ("B", some 2), ("C", some 3)] ∧
    (pipeline
      [⟨"S||Study1", "f1", "mprage_run", "A", "T1w", "", "100", none, demoC2⟩]).map
        (fun r => r.rep) = [none] :=
  ⟨claim_C2_amended.1 "S||Study1" "f1" "mprage_run" "T1w" "" none demoC2
      "A" "B" "C" "300" "200" "100" (by decide) (by decide) (by decide),
   claim_C2_amended.2 "S||Study1" "f1" "mprage_run" "T1w" "" none demoC2
      "A" "100" (by decide)⟩

/-- C9: the pipeline from a fixed list of decoded observations to the final
table (aggregation, identity assignment, row building, field-map
consolidation, final sort) is deterministic: two runs on identical
observation lists produce identical output tables.  (In this pure
functional embedding this is definitional; the embedding itself documents
that every map iteration the pipeline performs is over sorted or
insertion-ordered keys, never over nondeterministic ordering.) -/
theorem claim_C9 (obs1 obs2 : List Obs) (h : obs1 = obs2) :
    pipeline obs1 = pipeline obs2 := by rw [h]

/-- C9 (witness): two runs over the same concrete observation list. -/
theorem claim_C9_witness :
    pipeline [obsC2 "A" "100", obsC2 "B" "200"] =
      pipeline [obsC2 "A" "100", obsC2 "B" "200"] :=
  claim_C9 [obsC2 "A" "100", obsC2 "B" "200"] [obsC2 "A" "100", obsC2 "B" "200"]
    rfl


/-! ### Claim C4: field-map consolidation -/

/-- A concrete field-map row for the C4 scenarios. -/
def rowC4 (uid tag t : String) : Row :=
  { defaultRow with
    BIDS_name := "sub-001"
    session := ""
    source_folder := "f"
    sequence := "gre_field_mapping"
    series_uid := uid
    image_type := tag
    acq_time := t
    modality := "fmap"
    modality_bids := "fmap"
    incl := 1
    n_files := 32 }

/-- C4 (counterexample): two field-map rows sharing subject code, session,
folder and description, with image-type tags `"M"` and `"P"` and acquisition
times `"115959"` and `"120001"` — two seconds apart — are *not* merged,
because the grouping key uses the first four characters of the
acquisition-time string (`"1159"` vs `"1200"`).  Consolidation returns two
rows with the original tags instead of one `"MP"` row. -/
theorem claim_C4_counterexample :
    (consolidate [rowC4 "U1" "M" "115959", rowC4 "U2" "P" "120001"]).length = 2 ∧
    (consolidate [rowC4 "U1" "M" "115959", rowC4 "U2" "P" "120001"]).map
      (fun r => r.image_type) = ["M", "P"] := by
  exact ⟨rfl, rfl⟩

/-- C4 (amended): for any two field-map rows sharing subject code, session,
folder and description, carrying the image-type tags `"M"` and `"P"` (in
either order) and acquisition-time strings sharing the same
first-four-character prefix (the bucket meant to capture times seconds
apart), consolidation produces exactly one row whose file count is the sum
of the two counts, whose image-type tag is `"MP"` (the sorted distinct tags
concatenated), whose series identifier is the sorted union of both
identifiers joined with `"|"`, whose include flag is the maximum of the two,
and whose remaining fields come from the first group member. -/
theorem claim_C4_amended (r1 r2 : Row)
    (hm1 : r1.modality = "fmap") (hm2 : r2.modality = "fmap")
    (hb : r1.BIDS_name = r2.BIDS_name) (hs : r1.session = r2.session)
    (hf : r1.source_folder = r2.source_folder) (hq : r1.sequence = r2.sequence)
    (ht : take4 r1.acq_time = take4 r2.acq_time)
    (htags : (r1.image_type = "M" ∧ r2.image_type = "P") ∨
             (r1.image_type = "P" ∧ r2.image_type = "M"))
    (hu : r1.series_uid ≠ r2.series_uid) :
    consolidate [r1, r2] = [{ r1 with
      incl := Nat.max r1.incl r2.incl
      series_uid :=
        if ltCharsB r1.series_uid.data r2.series_uid.data = true
        then r1.series_uid ++ "|" ++ r2.series_uid
        else r2.series_uid ++ "|" ++ r1.series_uid
      rep := none
      image_type := "MP"
      n_files := r1.n_files + r2.n_files }] := by
  have hk : fmapKey r1 = fmapKey r2 := by
    simp [fmapKey, hb, hs, hf, hq, ht]
  have hded : [fmapKey r2, fmapKey r2].dedup = [fmapKey r2] := by
    rw [List.dedup_cons_of_mem (by simp)]; simp
  have hded2 : [r1.series_uid, r2.series_uid].dedup =
      [r1.series_uid, r2.series_uid] := by
    rw [List.dedup_cons_of_not_mem (by simp [hu])]; simp
  have husort : joinSep "|"
      (List.insertionSort strLe [r1.series_uid, r2.series_uid]) =
      (if ltCharsB r1.series_uid.data r2.series_uid.data = true
       then r1.series_uid ++ "|" ++ r2.series_uid
       else r2.series_uid ++ "|" ++ r1.series_uid) := by
    rcases ltCharsB_total r1.series_uid.data r2.series_uid.data with h12 | heq | h21
    · have hle : strLe r1.series_uid r2.series_uid := by
        simp [strLe, leStrB, h12]
      rw [if_pos h12]
      simp [List.insertionSort, List.orderedInsert, if_pos hle, joinSep]
    · exact absurd (strDataEq heq) hu
    · have hne12 : ltCharsB r1.series_uid.data r2.series_uid.data = false := by
        cases hb12 : ltCharsB r1.series_uid.data r2.series_uid.data with
        | true => exact (ltCharsB_asymm _ _ hb12 h21).elim
        | false => rfl
      have hnle : ¬ strLe r1.series_uid r2.series_uid := by
        simp [strLe, leStrB, hne12, hu]
      rw [if_neg (by rw [hne12]; exact Bool.false_ne_true)]
      simp [List.insertionSort, List.orderedInsert, if_neg hnle, joinSep]
  have himg : joinSep ""
      (List.insertionSort strLe ([r1.image_type, r2.image_type].dedup)) =
      "MP" := by
    rcases htags with ⟨hi1, hi2⟩ | ⟨hi1, hi2⟩ <;> rw [hi1, hi2] <;> decide
  simp only [consolidate, List.filter, hm1, hm2, decide_eq_true_eq, decide_True,
    decide_not, Bool.not_true, List.isEmpty, List.map, hk, Bool.false_eq_true,
    if_false, hded]
  simp only [List.insertionSort, List.orderedInsert, List.map, eq_self_iff_true,
    decide_True, mergeGroup]
  simp only [hded2, husort, himg, List.foldl,
    Nat.zero_max, Nat.zero_add, assignFmapReps, repsGo, baseKey, List.filter,
    eq_self_iff_true, decide_True, List.length_cons, List.length_nil,
    List.nil_append]
  simp [hm1]

/-- C4 (witness): the amended consolidation theorem applied to two concrete
rows — the phase row first and its identifier sorting after the magnitude
row's — whose acquisition times are two seconds apart within one bucket. -/
theorem claim_C4_witness :
    consolidate [rowC4 "U2" "P" "120001", rowC4 "U1" "M" "120003"] =
      [{ rowC4 "U2" "P" "120001" with
        incl := Nat.max 1 1
        series_uid := "U1" ++ "|" ++ "U2"
        rep := none
        image_type := "MP"
        n_files := 32 + 32 }] := by
  rw [claim_C4_amended (rowC4 "U2" "P" "120001") (rowC4 "U1" "M" "120003")
    rfl rfl rfl rfl rfl rfl rfl (Or.inr ⟨rfl, rfl⟩) (by decide)]
  rfl

/-! ### Claim C6: the include flag -/

/-- The include rule stated by the claim: 1 unless the fine modality is
`"scout"` or `"report"` or the lowered description contains `"physlog"`. -/
def inclSpec (modality sequence : String) : Nat :=
  if modality = "scout" ∨ modality = "report" ∨
      substrB "physlog" (lowerStr sequence) = true then 0 else 1

theorem rowsForKeys_incl (a : Agg) (bname sk f session : String) (dm : Demo) :
    ∀ (ks : List (String × String)) (fr : Bool)
      (rc : List ((String × Option String) × Nat)) (r : Row),
      r ∈ (rowsForKeys a bname sk f session dm ks fr rc).1 →
      r.incl = inclSpec r.modality r.sequence := by
  intro ks
  induction ks with
  | nil => intro fr rc r h; simp [rowsForKeys] at h
  | cons k rest ih =>
    intro fr rc r h
    simp only [rowsForKeys, List.mem_cons] at h
    rcases h with h | h
    · subst h; rfl
    · exact ih false _ r h

theorem rowsForFolders_incl (a : Agg) (bname sk : String) (dm : Demo) :
    ∀ (fs : List String) (fr : Bool) (r : Row),
      r ∈ (rowsForFolders a bname sk dm fs fr).1 →
      r.incl = inclSpec r.modality r.sequence := by
  intro fs
  induction fs with
  | nil => intro fr r h; simp [rowsForFolders] at h
  | cons f rest ih =>
    intro fr r h
    simp only [rowsForFolders, List.mem_append] at h
    rcases h with h | h
    · exact rowsForKeys_incl a bname sk f (sessionOf a sk f) dm _ fr [] r h
    · exact ih _ r h

theorem buildRows_incl (obs : List Obs) :
    ∀ r ∈ buildRows obs, r.incl = inclSpec r.modality r.sequence := by
  intro r h
  simp only [buildRows, List.mem_flatMap] at h
  obtain ⟨sk, _, hr⟩ := h
  exact rowsForFolders_incl _ _ _ _ _ _ r hr

theorem foldl_max_eq {c : Nat} :
    ∀ (g : List Row) (acc : Nat), (∀ r ∈ g, r.incl = c) → acc ≤ c → g ≠ [] →
    g.foldl (fun m r => Nat.max m r.incl) acc = c := by
  intro g
  induction g with
  | nil => intro acc _ _ hne; exact absurd rfl hne
  | cons r rest ih =>
    intro acc hall hacc _
    have hmax : Nat.max acc c = c := Nat.max_eq_right hacc
    rw [List.foldl_cons, hall r (List.mem_cons_self r rest), hmax]
    cases rest with
    | nil => rfl
    | cons r' rest' =>
      exact ih c (fun x hx => hall x (List.mem_cons_of_mem r hx))
        (Nat.le_refl c) (by simp)

theorem mem_repsGo (all : List Row) :
    ∀ (rs pre : List Row) (r' : Row), r' ∈ repsGo all pre rs →
      ∃ r ∈ rs, ∃ x, r' = { r with rep := x } := by
  intro rs
  induction rs with
  | nil => intro pre r' h; simp [repsGo] at h
  | cons r rest ih =>
    intro pre r' h
    simp only [repsGo, List.mem_cons] at h
    rcases h with h | h
    · exact ⟨r, List.mem_cons_self r rest, _, h⟩
    · obtain ⟨q, hq, x, hx⟩ := ih (pre ++ [r]) r' h
      exact ⟨q, List.mem_cons_of_mem r hq, x, hx⟩

theorem consolidate_incl (rows : List Row)
    (h : ∀ r ∈ rows, r.incl = inclSpec r.modality r.sequence) :
    ∀ r ∈ consolidate rows, r.incl = inclSpec r.modality r.sequence := by
  intro r hm
  simp only [consolidate] at hm
  by_cases hfm : (rows.filter (fun r => decide (r.modality = "fmap"))).isEmpty
  · rw [if_pos hfm] at hm
    exact h r hm
  · rw [if_neg hfm] at hm
    rcases List.mem_append.mp hm with hkeep | hrep
    · exact h r (List.mem_filter.mp hkeep).1
    · obtain ⟨m, hmm, x, hx⟩ := mem_repsGo _ _ [] r hrep
      have hmerged : m ∈ List.map
          (fun k => mergeGroup ((rows.filter (fun r => decide (r.modality = "fmap"))).filter
            (fun r => decide (fmapKey r = k))))
          (List.insertionSort key5Le
            ((rows.filter (fun r => decide (r.modality = "fmap"))).map fmapKey).dedup) :=
        ((List.perm_insertionSort acqLe _).mem_iff).mp hmm
      obtain ⟨k, hkmem, hkm⟩ := List.mem_map.mp hmerged
      -- the group is nonempty
      have hkmem2 : k ∈ ((rows.filter (fun r => decide (r.modality = "fmap"))).map fmapKey) := by
        have h1 := ((List.perm_insertionSort key5Le _).mem_iff).mp hkmem
        exact List.mem_dedup.mp h1
      obtain ⟨y, hy, hyk⟩ := List.mem_map.mp hkmem2
      have hyg : y ∈ (rows.filter (fun r => decide (r.modality = "fmap"))).filter
          (fun r => decide (fmapKey r = k)) :=
        List.mem_filter.mpr ⟨hy, by simp [hyk]⟩
      have hgne : (rows.filter (fun r => decide (r.modality = "fmap"))).filter
          (fun r => decide (fmapKey r = k)) ≠ [] :=
        List.ne_nil_of_mem hyg
      obtain ⟨r0, grest, hg⟩ := List.exists_cons_of_ne_nil hgne
      -- facts about group members
      have hmemfacts : ∀ x ∈ r0 :: grest,
          x.modality = "fmap" ∧ x.sequence = k.2.2.2.1 ∧
            x.incl = inclSpec x.modality x.sequence := by
        intro x hxm
        rw [← hg] at hxm
        have h1 := List.mem_filter.mp hxm
        have h2 := List.mem_filter.mp h1.1
        have hmod : x.modality = "fmap" := by simpa using h2.2
        have hkx : fmapKey x = k := by simpa using h1.2
        refine ⟨hmod, ?_, h x h2.1⟩
        rw [← hkx]
        rfl
      have hc : ∀ x ∈ r0 :: grest, x.incl = inclSpec "fmap" k.2.2.2.1 := by
        intro x hxm
        obtain ⟨hmod, hseq, hincl⟩ := hmemfacts x hxm
        rw [hincl, hmod, hseq]
      have hincl0 : (mergeGroup (r0 :: grest)).incl = inclSpec "fmap" k.2.2.2.1 := by
        show (r0 :: grest).foldl (fun m r => Nat.max m r.incl) 0 =
          inclSpec "fmap" k.2.2.2.1
        exact foldl_max_eq (r0 :: grest) 0 hc (Nat.zero_le _) (by simp)
      have hmod0 : (mergeGroup (r0 :: grest)).modality = "fmap" :=
        (hmemfacts r0 (List.mem_cons_self r0 grest)).1
      have hseq0 : (mergeGroup (r0 :: grest)).sequence = k.2.2.2.1 :=
        (hmemfacts r0 (List.mem_cons_self r0 grest)).2.1
      have hm2 : m = mergeGroup (r0 :: grest) := by rw [← hkm, hg]
      subst hx
      show m.incl = inclSpec m.modality m.sequence
      rw [hm2, hincl0, hmod0, hseq0]

/-- C6: for every row of the final table, the include flag is 1 unless the
fine modality is `"scout"` or `"report"`, or the raw description contains
`"physlog"` case-insensitively, in which case the row is emitted with
include flag 0.  This holds through field-map consolidation because merged
rows take the maximum include flag of a group that shares one sequence and
whose members all have modality `"fmap"`. -/
theorem claim_C6 (obs : List Obs) (r : Row) (hmem : r ∈ pipeline obs) :
    r.incl = inclSpec r.modality r.sequence := by
  have h2 : r ∈ consolidate (buildRows obs) :=
    ((List.perm_insertionSort finalLe _).mem_iff).mp hmem
  exact consolidate_incl _ (buildRows_incl obs) r h2


/-- A localizer observation for the C6 witness (its description matches the
localizer pattern set, so its row must carry include flag 0). -/
def obsC6 : Obs :=
  ⟨"S||Study1", "f1", "localizer_3plane", "U1", guessModality "localizer_3plane",
    "", "100000", none, demoC2⟩

set_option maxHeartbeats 2000000 in
/-- C6 (witness): the include rule applied to the single row produced by a
concrete localizer observation, whose membership is discharged by
evaluation; its include flag evaluates to 0. -/
theorem claim_C6_witness :
    ((pipeline [obsC6]).headD defaultRow).incl =
      inclSpec ((pipeline [obsC6]).headD defaultRow).modality
        ((pipeline [obsC6]).headD defaultRow).sequence ∧
    ((pipeline [obsC6]).headD defaultRow).incl = 0 :=
  ⟨claim_C6 [obsC6] ((pipeline [obsC6]).headD defaultRow) (by decide), rfl⟩

end BidsManager
